import Mathlib

/-!
# ClassConnect chat client: protocol and reconciliation model

A shallow embedding of the realtime-room chat client found in this
repository (`src/src/client/index.tsx`, `src/unnamed/part_001`,
`src/unnamed/part_003`, the second client variant embedded in
`src/src/client/index.tsx` after the document separator, and the shared
type contract `src/src/shared.ts`).

The repository contains several near-duplicate client skins.  The parts
embedded here are the ones the claims reference:

* the *reconcile engine* (`index.tsx` first document, identical in
  `part_001`): `reconcile`, the `onMessage` dispatcher, the optimistic
  `send` append, the presence upsert and the `messages.slice(-500)`
  persistence trim;
* the `part_003` helpers `addMessage` (dedupe append) and
  `updateMessage` (replace by id), whose `updateMessage` logic is also
  inlined in the second `index.tsx` variant's `handleIncoming`;
* the second `index.tsx` variant's `handleIncoming` dispatcher with its
  fallback branch that appends a synthesized system entry for
  unrecognized envelope types.

Machine-level conventions of the embedding:

* JavaScript objects holding the wire-contract fields (§6 of the spec)
  are modelled as Lean structures with `Option` for optional/absent
  fields; an absent JSON key and an explicitly `undefined` value are
  both `none`.
* `JSON.parse` is a platform primitive; its outcome is modelled as an
  `Except Unit JValue` input (`.error ()` = the parse threw; the
  client's `try`/`catch` turns that into a no-op).
* Inbound JSON values are modelled by the `JValue` inductive; field
  access `data.k` is `getF data k` (absent key ↦ `none`).  The decode
  helpers coerce fields at the wire-contract types: a field that is
  missing, `null`, or not a string is treated as absent, which agrees
  with the code's `??` defaulting for the optional fields the claims
  exercise.
* Timestamps (`created_at`, `lastSeen`) are opaque ISO strings; the
  client never computes with them, it only stores and forwards them.
-/

/-- A message-log entry (`ChatMessage` in `shared.ts`, plus the
`pending` flag the reconcile engine stores on optimistic entries and the
`created_at` string carried on `add` payloads).  Extra ad-hoc fields the
JS objects may carry (`type`, `kind`, `to`) are not observable by any
claim and are omitted. -/
structure ChatEntry where
  id : String
  content : String
  user : String
  role : String
  created_at : Option String
  pending : Bool
deriving DecidableEq

/-- An inbound `add` envelope's payload fields
(`{type:"add", id, content, user, role, created_at?}`). -/
structure AddMsg where
  id : String
  content : String
  user : String
  role : String
  created_at : Option String
deriving DecidableEq

/-- An inbound `update` envelope's payload fields
(`{type:"update", id, content, user, role}`). -/
structure UpdateMsg where
  id : String
  content : String
  user : String
  role : String
deriving DecidableEq

/-- An inbound `presence` envelope's payload fields
(`{type:"presence", user, status?, id?, lastSeen?}`); `id` here is the
per-session client identifier. -/
structure PresenceMsg where
  user : String
  id : Option String
  status : Option String
  lastSeen : Option String
deriving DecidableEq

/-- A roster entry (`Participant` in the client files):
`{user, id?, status, lastSeen?}`. -/
structure Participant where
  user : String
  id : Option String
  status : String
  lastSeen : Option String
deriving DecidableEq

/-- `{ ...entry, ...msg, pending: false }` — the object spread the
reconcile engine uses when an inbound `add` resolves an existing entry:
every envelope field overwrites, `created_at` only when the envelope
carries one (spread keeps the old value for keys the envelope lacks),
and `pending` is forced to `false`. -/
def mergeEntry (e : ChatEntry) (msg : AddMsg) : ChatEntry :=
  { id := msg.id
    content := msg.content
    user := msg.user
    role := msg.role
    created_at := match msg.created_at with
      | some t => some t
      | none => e.created_at
    pending := false }

/-- `{ ...msg, pending: false }` — the confirmed entry appended when an
inbound `add` matches nothing. -/
def entryOfAdd (msg : AddMsg) : ChatEntry :=
  { id := msg.id
    content := msg.content
    user := msg.user
    role := msg.role
    created_at := msg.created_at
    pending := false }

/-- First phase of `reconcile` (`index.tsx` lines 283–289 / `part_001`
lines 195–201): `prev.findIndex((m) => m.id === msg.id)`; on a hit the
entry at that index becomes `{ ...old, ...msg, pending: false }` and the
rest of the log is untouched.  `none` means no entry has the envelope's
id. -/
def replaceById (msg : AddMsg) : List ChatEntry → Option (List ChatEntry)
  | [] => none
  | e :: rest =>
    if e.id = msg.id then some (mergeEntry e msg :: rest)
    else (replaceById msg rest).map (fun l => e :: l)

/-- Second phase of `reconcile` (`index.tsx` lines 290–298): the loop
`for (let j = prev.length - 1; j >= Math.max(0, prev.length - 40); j--)`
searching, from the most recent entry backwards through at most the last
40 entries, for a `pending` entry with the envelope's `(user, content)`
pair; on a hit that entry becomes `{ ...m, ...msg, pending: false }`.
An element with `rest` entries after it has absolute index
`length - 1 - rest.length`, so the loop's bound `j ≥ length - 40` is
exactly `rest.length < 40`; recursing on the tail first makes the
latest matching index win, as the downward loop does. -/
def fuzzyResolve (msg : AddMsg) : List ChatEntry → Option (List ChatEntry)
  | [] => none
  | e :: rest =>
    match fuzzyResolve msg rest with
    | some l => some (e :: l)
    | none =>
      if rest.length < 40 ∧ e.pending = true ∧ e.user = msg.user ∧ e.content = msg.content
      then some (mergeEntry e msg :: rest)
      else none

/-- `reconcile` (`src/src/client/index.tsx` lines 281–302,
`src/unnamed/part_001` lines 193–214): exact-id replace, else fuzzy
pending-match replace over the last 40 entries, else append
`{ ...msg, pending: false }`.  Note the source applies no timestamp or
recency condition anywhere. -/
def reconcile (msg : AddMsg) (prev : List ChatEntry) : List ChatEntry :=
  match replaceById msg prev with
  | some l => l
  | none =>
    match fuzzyResolve msg prev with
    | some l => l
    | none => prev ++ [entryOfAdd msg]

/-- The optimistic local append performed by `send` (`index.tsx` lines
380–383): a fresh payload `{type:"add", id, content, user, role,
created_at}` is built and `{ ...payload, pending: true }` is appended to
the log (the spec names this operation `appendLocal`). -/
def appendLocal (log : List ChatEntry) (newId content user role nowIso : String) :
    List ChatEntry :=
  log ++ [{ id := newId
            content := content
            user := user
            role := role
            created_at := some nowIso
            pending := true }]

/-- `addMessage` (`src/unnamed/part_003` lines 373–379): drop falsy
ids (`!m || !m.id`), keep the log unchanged when an entry with the same
id already exists, otherwise append. -/
def addMessage (m : ChatEntry) (log : List ChatEntry) : List ChatEntry :=
  if m.id = "" then log
  else if log.any (fun x => x.id == m.id) then log
  else log ++ [m]

/-- The replacement entry an `update` envelope installs: exactly the
four envelope fields (`{id, content, user, role}`); `created_at` and
`pending` are absent on the replacement object, i.e. `none`/`false`. -/
def entryOfUpdate (m : UpdateMsg) : ChatEntry :=
  { id := m.id
    content := m.content
    user := m.user
    role := m.role
    created_at := none
    pending := false }

/-- `updateMessage` (`src/unnamed/part_003` lines 381–384, identical
inline in the second `index.tsx` variant's `handleIncoming` lines
774–785): `prev.map((x) => (x.id === m.id ? replacement : x))`. -/
def updateMessage (m : UpdateMsg) (log : List ChatEntry) : List ChatEntry :=
  log.map (fun x => if x.id = m.id then entryOfUpdate m else x)

/-- The persistence trim (`index.tsx` line 274 / `part_001` line 186):
the persisted copy of the log is `messages.slice(-500)`, i.e. the most
recent 500 entries; `slice(-n)` of a shorter list is the whole list,
which is `drop (length - 500)` with truncated subtraction. -/
def logTrim (log : List ChatEntry) : List ChatEntry :=
  log.drop (log.length - 500)

/-- The participant object built by the reconcile engine's presence
branch (`index.tsx` line 311): `{ user: data.user, id: data.id ??
data.user, status: data.status ?? "online", lastSeen: data.lastSeen }`.
-/
def mkParticipant (d : PresenceMsg) : Participant :=
  { user := d.user
    id := some (d.id.getD d.user)
    status := d.status.getD "online"
    lastSeen := d.lastSeen }

/-- The roster upsert of the presence branch (`index.tsx` lines
312–316, `part_003` lines 414–420): `findIndex` on the user name; on a
hit `copy[idx] = { ...copy[idx], ...p }` — and `p` carries all four
participant keys, so the merge is `p` — otherwise append. -/
def presenceUpsert (p : Participant) : List Participant → List Participant
  | [] => [p]
  | x :: rest => if x.user = p.user then p :: rest else x :: presenceUpsert p rest

/-- The whole presence branch of the reconcile engine: build the
defaulted participant, then upsert it into the roster. -/
def presenceStep (d : PresenceMsg) (roster : List Participant) : List Participant :=
  presenceUpsert (mkParticipant d) roster

/-- `msg.status || "online"` (second `index.tsx` variant line 789,
`part_003` line 413): JavaScript `||` also replaces the falsy empty
string, unlike `??`. -/
def statusOr (o : Option String) : String :=
  match o with
  | some s => if s = "" then "online" else s
  | none => "online"

/-- The participant built by the second `index.tsx` variant's presence
branch (line 789): `{ user, status: msg.status || "online", lastSeen,
id: msg.id }` — no defaulting of `id`. -/
def mkParticipantV2 (d : PresenceMsg) : Participant :=
  { user := d.user
    id := d.id
    status := statusOr d.status
    lastSeen := d.lastSeen }

/-- Parsed JSON values (`JSON.parse` output).  Numbers are modelled as
integers: no claim observes a numeric field. -/
inductive JValue where
  | jnull
  | jbool (b : Bool)
  | jnum (n : Int)
  | jstr (s : String)
  | jarr (elems : List JValue)
  | jobj (fields : List (String × JValue))

/-- JavaScript property access `data.k` on a parsed JSON value: a key
lookup on objects (parsed JSON objects have distinct keys), `undefined`
(`none`) on anything else the dispatchers reach. -/
def getF : JValue → String → Option JValue
  | .jobj fs, k => (fs.find? (fun kv => kv.fst == k)).map (fun kv => kv.snd)
  | _, _ => none

/-- The dispatcher guard `if (!data || typeof data !== "object")
return;`: only objects and arrays pass (`typeof null` is `"object"` but
`!null` already rejected it). -/
def passesGuard : JValue → Bool
  | .jobj _ => true
  | .jarr _ => true
  | _ => false

/-- Coerce a possibly-absent field to a wire-contract string: missing,
`null`, and non-string values are all treated as absent, matching the
`??` defaulting on the optional fields. -/
def jStr? : Option JValue → Option String
  | some (.jstr s) => some s
  | _ => none

/-- The `type` discriminator of a parsed envelope, when it is a string
(`data.type === "..."` can only succeed on a string `type`). -/
def typeTag (data : JValue) : Option String := jStr? (getF data "type")

/-- The envelope `type` values §6 of the spec recognizes. -/
def recognizedTags : List String := ["add", "update", "presence", "participants"]

/-- Read an inbound `add` envelope's fields off the parsed value. -/
def decodeAdd (data : JValue) : AddMsg :=
  { id := (jStr? (getF data "id")).getD ""
    content := (jStr? (getF data "content")).getD ""
    user := (jStr? (getF data "user")).getD ""
    role := (jStr? (getF data "role")).getD ""
    created_at := jStr? (getF data "created_at") }

/-- Read an inbound `update` envelope's fields off the parsed value
(also the four fields the second variant's `add` branch copies). -/
def decodeUpdate (data : JValue) : UpdateMsg :=
  { id := (jStr? (getF data "id")).getD ""
    content := (jStr? (getF data "content")).getD ""
    user := (jStr? (getF data "user")).getD ""
    role := (jStr? (getF data "role")).getD "" }

/-- Read an inbound `presence` envelope's fields off the parsed value;
the optional fields stay optional, the branch-specific defaulting lives
in `mkParticipant` / `mkParticipantV2`. -/
def decodePresence (data : JValue) : PresenceMsg :=
  { user := (jStr? (getF data "user")).getD ""
    id := jStr? (getF data "id")
    status := jStr? (getF data "status")
    lastSeen := jStr? (getF data "lastSeen") }

/-- One element of a `participants` snapshot, as the reconcile engine
normalizes it (`index.tsx` line 322): `{ user: p.user, id: p.id,
status: p.status ?? "online", lastSeen: p.lastSeen }`. -/
def decodeParticipant (v : JValue) : Participant :=
  { user := (jStr? (getF v "user")).getD ""
    id := jStr? (getF v "id")
    status := (jStr? (getF v "status")).getD "online"
    lastSeen := jStr? (getF v "lastSeen") }

/-- The roster a `participants` envelope installs (`index.tsx` lines
320–323): `Array.isArray(data.participants)` guards, anything else
yields the empty list, then each element is normalized. -/
def decodeParticipants (data : JValue) : List Participant :=
  match getF data "participants" with
  | some (.jarr xs) => xs.map decodeParticipant
  | _ => []

/-- One element of a snapshot as the second `index.tsx` variant
normalizes it (line 800): `status: p.status || "online"`. -/
def decodeParticipantV2 (v : JValue) : Participant :=
  { user := (jStr? (getF v "user")).getD ""
    id := jStr? (getF v "id")
    status := statusOr (jStr? (getF v "status"))
    lastSeen := jStr? (getF v "lastSeen") }

/-- The roster a `participants` envelope installs in the second
`index.tsx` variant (lines 797–806). -/
def decodeParticipantsV2 (data : JValue) : List Participant :=
  match getF data "participants" with
  | some (.jarr xs) => xs.map decodeParticipantV2
  | _ => []

/-- The per-room client state the handlers mutate: the message log and
the participant roster. -/
structure ClientState where
  messages : List ChatEntry
  participants : List Participant
deriving DecidableEq

/-- The reconcile engine's inbound handler `onMessage`
(`src/src/client/index.tsx` lines 305–332, `src/unnamed/part_001` lines
217–251).  The `Except` input is the outcome of `JSON.parse(evt.data)`:
`.error ()` models a parse throw, which the surrounding `try`/`catch`
swallows (`console.warn`) leaving all state untouched.  Then the guard
`if (!data || typeof data !== "object") return;`, then the dispatch on
`data.type === "presence" / "participants" / "add"`; every other value
of `type` — including `"update"`, which this engine does not handle —
falls through every branch and the handler returns without touching
state. -/
def onMessage (raw : Except Unit JValue) (st : ClientState) : ClientState :=
  match raw with
  | .error _ => st
  | .ok data =>
    if passesGuard data then
      if typeTag data = some "presence" then
        { st with participants := presenceStep (decodePresence data) st.participants }
      else if typeTag data = some "participants" then
        { st with participants := decodeParticipants data }
      else if typeTag data = some "add" then
        { st with messages := reconcile (decodeAdd data) st.messages }
      else st
    else st

/-- The second `index.tsx` variant's inbound handler `handleIncoming`
(lines 760–820).  Branch order as in the source: `add` appends the four
envelope fields blindly, `update` maps `updateMessage`'s replacement
over the log, `presence` upserts with `||`-defaulting, `participants`
replaces the roster, and the final `else` (lines 807–814) appends a
synthesized system entry `{ id: "sys-" + Date.now(), content: String(text),
user: "system", role: "system" }` built from the raw frame text.
`now` models `Date.now()` and `rawText` the raw `evt.data` string. -/
def handleIncoming (now : Nat) (rawText : String) (raw : Except Unit JValue)
    (st : ClientState) : ClientState :=
  match raw with
  | .error _ => st
  | .ok data =>
    if passesGuard data then
      if typeTag data = some "add" then
        { st with messages := st.messages ++ [entryOfUpdate (decodeUpdate data)] }
      else if typeTag data = some "update" then
        { st with messages := updateMessage (decodeUpdate data) st.messages }
      else if typeTag data = some "presence" then
        { st with participants :=
            presenceUpsert (mkParticipantV2 (decodePresence data)) st.participants }
      else if typeTag data = some "participants" then
        { st with participants := decodeParticipantsV2 data }
      else
        { st with messages := st.messages ++
            [{ id := "sys-" ++ toString now
               content := rawText
               user := "system"
               role := "system"
               created_at := none
               pending := false }] }
    else st

/-! ## Helper lemmas about the reconcile phases -/

/-- An exact-id replacement leaves the sequence of entry ids unchanged:
the replacement at the hit carries the envelope's id, which is the id
already stored there. -/
theorem replaceById_ids {msg : AddMsg} :
    ∀ {log l : List ChatEntry}, replaceById msg log = some l →
      l.map (fun e => e.id) = log.map (fun e => e.id) := by
  intro log
  induction log with
  | nil => intro l h; simp [replaceById] at h
  | cons e rest ih =>
    intro l h
    by_cases hid : e.id = msg.id
    · simp only [replaceById, if_pos hid] at h
      cases h
      simp [mergeEntry, hid]
    · simp only [replaceById, if_neg hid, Option.map_eq_some'] at h
      obtain ⟨l', hl', rfl⟩ := h
      simp [ih hl']

/-- When the exact-id phase misses, no entry has the envelope's id. -/
theorem replaceById_none {msg : AddMsg} :
    ∀ {log : List ChatEntry}, replaceById msg log = none →
      ∀ x ∈ log, x.id ≠ msg.id := by
  intro log
  induction log with
  | nil => intro _ x hx; simp at hx
  | cons e rest ih =>
    intro h x hx
    by_cases hid : e.id = msg.id
    · simp [replaceById, if_pos hid] at h
    · simp only [replaceById, if_neg hid, Option.map_eq_none'] at h
      rcases List.mem_cons.mp hx with rfl | hx
      · exact hid
      · exact ih h x hx

/-- The exact-id phase on a log whose only id hit is a freshly appended
last entry replaces exactly that entry. -/
theorem replaceById_append {msg : AddMsg} {e : ChatEntry} (he : e.id = msg.id) :
    ∀ {log : List ChatEntry}, (∀ x ∈ log, x.id ≠ msg.id) →
      replaceById msg (log ++ [e]) = some (log ++ [mergeEntry e msg]) := by
  intro log
  induction log with
  | nil => intro _; simp [replaceById, he]
  | cons x rest ih =>
    intro hfresh
    have hx : x.id ≠ msg.id := hfresh x (List.mem_cons_self x rest)
    have hrest : ∀ y ∈ rest, y.id ≠ msg.id := fun y hy =>
      hfresh y (List.mem_cons_of_mem x hy)
    rw [List.cons_append, replaceById, if_neg hx, ih hrest]
    rfl

/-- Characterization of a fuzzy-phase hit: some position `j` within the
last 40 entries holds a pending entry with the envelope's `(user,
content)` pair, and the result is the log with that position replaced by
the merged, confirmed entry.  No condition on any timestamp appears. -/
theorem fuzzyResolve_spec {msg : AddMsg} :
    ∀ {log l : List ChatEntry}, fuzzyResolve msg log = some l →
      ∃ j e, log.get? j = some e ∧ e.pending = true ∧ e.user = msg.user ∧
        e.content = msg.content ∧ log.length ≤ j + 40 ∧
        l = log.set j (mergeEntry e msg) := by
  intro log
  induction log with
  | nil => intro l h; simp [fuzzyResolve] at h
  | cons e rest ih =>
    intro l h
    simp only [fuzzyResolve] at h
    cases hrec : fuzzyResolve msg rest with
    | some l' =>
      rw [hrec] at h
      obtain rfl : e :: l' = l := by injection h
      obtain ⟨j, e', hget, hp, hu, hc, hlen, rfl⟩ := ih hrec
      refine ⟨j + 1, e', ?_, hp, hu, hc, ?_, ?_⟩
      · simpa using hget
      · simpa using Nat.succ_le_succ hlen
      · simp
    | none =>
      rw [hrec] at h
      by_cases hcond :
          rest.length < 40 ∧ e.pending = true ∧ e.user = msg.user ∧ e.content = msg.content
      · rw [if_pos hcond] at h
        obtain ⟨hlen, hp, hu, hc⟩ := hcond
        obtain rfl : mergeEntry e msg :: rest = l := by injection h
        exact ⟨0, e, rfl, hp, hu, hc, by simp only [List.length_cons]; omega, by simp⟩
      · rw [if_neg hcond] at h
        exact absurd h (by simp)

/-- Setting a position to a value not present elsewhere preserves
`Nodup`. -/
theorem nodup_set {α : Type} :
    ∀ {l : List α} {i : Nat} {a : α}, l.Nodup → a ∉ l → (l.set i a).Nodup := by
  intro l
  induction l with
  | nil => intro i a _ _; simp
  | cons x rest ih =>
    intro i a hnd hna
    have hx : x ∉ rest := (List.nodup_cons.mp hnd).1
    have hrest : rest.Nodup := (List.nodup_cons.mp hnd).2
    have hax : a ≠ x := fun h => hna (h ▸ List.mem_cons_self x rest)
    have harest : a ∉ rest := fun h => hna (List.mem_cons_of_mem x h)
    cases i with
    | zero =>
      simp only [List.set_cons_zero, List.nodup_cons]
      exact ⟨harest, hrest⟩
    | succ n =>
      simp only [List.set_cons_succ, List.nodup_cons]
      refine ⟨fun hmem => ?_, ih hrest harest⟩
      rcases List.mem_or_eq_of_mem_set hmem with h | h
      · exact hx h
      · exact hax h.symm

/-- The merged entry of an already-settled envelope echo is that settled
entry itself. -/
theorem mergeEntry_entryOfAdd (msg : AddMsg) :
    mergeEntry (entryOfAdd msg) msg = entryOfAdd msg := by
  cases h : msg.created_at <;> simp [mergeEntry, entryOfAdd, h]

/-- On a duplicate-free log containing the settled form of the
envelope, the exact-id phase hits that entry and rewrites it to itself.
-/
theorem replaceById_settled {msg : AddMsg} :
    ∀ {log : List ChatEntry}, entryOfAdd msg ∈ log →
      (log.map (fun e => e.id)).Nodup → replaceById msg log = some log := by
  intro log
  induction log with
  | nil => intro h; simp at h
  | cons e rest ih =>
    intro hmem hnd
    rw [List.map_cons, List.nodup_cons] at hnd
    obtain ⟨hne, hndrest⟩ := hnd
    by_cases hid : e.id = msg.id
    · have he : e = entryOfAdd msg := by
        rcases List.mem_cons.mp hmem with h | h
        · exact h.symm
        · exfalso
          apply hne
          rw [hid]
          simpa [entryOfAdd] using List.mem_map_of_mem (fun x => x.id) h
      subst he
      have hidr : (entryOfAdd msg).id = msg.id := rfl
      rw [replaceById, if_pos hidr, mergeEntry_entryOfAdd]
    · have hmem2 : entryOfAdd msg ∈ rest := by
        rcases List.mem_cons.mp hmem with h | h
        · exact absurd (congrArg ChatEntry.id h).symm hid
        · exact h
      simp [replaceById, if_neg hid, ih hmem2 hndrest]

/-- Appending an element whose key is fresh keeps the key list
duplicate-free. -/
theorem nodup_append_singleton {α : Type} :
    ∀ {l : List α} {a : α}, l.Nodup → a ∉ l → (l ++ [a]).Nodup := by
  intro l
  induction l with
  | nil => intro a _ _; simp
  | cons x rest ih =>
    intro a hnd hna
    rw [List.nodup_cons] at hnd
    rw [List.cons_append, List.nodup_cons]
    refine ⟨fun hmem => ?_, ih hnd.2 (fun h => hna (List.mem_cons_of_mem x h))⟩
    rcases List.mem_append.mp hmem with h | h
    · exact hnd.1 h
    · have hx : x = a := List.mem_singleton.mp h
      exact hna (by rw [← hx]; exact List.mem_cons_self x rest)

/-- `reconcile` never introduces a duplicate id: an exact-id hit keeps
the id sequence, a fuzzy hit installs an id that was absent, and the
append case appends an id that was absent. -/
theorem reconcile_nodup {msg : AddMsg} {log : List ChatEntry}
    (hnd : (log.map (fun e => e.id)).Nodup) :
    ((reconcile msg log).map (fun e => e.id)).Nodup := by
  rw [reconcile]
  cases hrep : replaceById msg log with
  | some l => rw [replaceById_ids hrep]; exact hnd
  | none =>
    have hfresh : msg.id ∉ log.map (fun e => e.id) := by
      intro hmem
      obtain ⟨x, hx, hxid⟩ := List.mem_map.mp hmem
      exact replaceById_none hrep x hx hxid
    cases hfz : fuzzyResolve msg log with
    | some l =>
      obtain ⟨j, e, hget, _, _, _, _, rfl⟩ := fuzzyResolve_spec hfz
      rw [List.map_set]
      exact nodup_set hnd (by simpa [mergeEntry] using hfresh)
    | none =>
      rw [List.map_append]
      exact nodup_append_singleton hnd (by simpa [entryOfAdd] using hfresh)

/-- `addMessage` never introduces a duplicate id: it appends only when
no entry carries the id. -/
theorem addMessage_nodup {m : ChatEntry} {log : List ChatEntry}
    (hnd : (log.map (fun e => e.id)).Nodup) :
    ((addMessage m log).map (fun e => e.id)).Nodup := by
  rw [addMessage]
  by_cases hempty : m.id = ""
  · rw [if_pos hempty]; exact hnd
  · rw [if_neg hempty]
    by_cases hany : log.any (fun x => x.id == m.id)
    · rw [if_pos hany]; exact hnd
    · rw [if_neg hany]
      rw [List.map_append]
      refine nodup_append_singleton hnd (fun hmem => ?_)
      obtain ⟨x, hx, hxid⟩ := List.mem_map.mp hmem
      exact hany (List.any_eq_true.mpr ⟨x, hx, by simp [hxid]⟩)

/-- `updateMessage` keeps the sequence of entry ids unchanged: the
replacement it installs carries the id it matched. -/
theorem updateMessage_ids (m : UpdateMsg) (log : List ChatEntry) :
    (updateMessage m log).map (fun e => e.id) = log.map (fun e => e.id) := by
  rw [updateMessage, List.map_map]
  refine List.map_congr_left (fun x _ => ?_)
  by_cases h : x.id = m.id
  · simp [h, entryOfUpdate]
  · simp [h]

/-- The message logs reachable from the empty log by the operations the
claims quantify over: optimistic local appends (`send`, with the nanoid
freshness assumption the client relies on), inbound `add` envelopes
through `reconcile`, inbound `add` envelopes through `part_003`'s
`addMessage`, and inbound `update` envelopes through `updateMessage`.
(The reconcile engine's own dispatcher drops `update` envelopes
entirely, which is the trivial special case of leaving the log as is.)
-/
inductive Reaches : List ChatEntry → Prop where
  | empty : Reaches []
  | rlocal (log : List ChatEntry) (newId content user role nowIso : String) :
      Reaches log → (∀ x ∈ log, x.id ≠ newId) →
      Reaches (appendLocal log newId content user role nowIso)
  | radd (log : List ChatEntry) (msg : AddMsg) :
      Reaches log → Reaches (reconcile msg log)
  | raddDedupe (log : List ChatEntry) (m : ChatEntry) :
      Reaches log → Reaches (addMessage m log)
  | rupdate (log : List ChatEntry) (m : UpdateMsg) :
      Reaches log → Reaches (updateMessage m log)

/-! ## Helper lemmas about the presence upsert -/

/-- Upserting the same participant twice equals upserting it once: the
second pass finds the participant installed by the first at the first
position carrying its user name and rewrites it to itself. -/
theorem presenceUpsert_idem (p : Participant) :
    ∀ roster : List Participant,
      presenceUpsert p (presenceUpsert p roster) = presenceUpsert p roster := by
  intro roster
  induction roster with
  | nil => simp [presenceUpsert]
  | cons x rest ih =>
    by_cases h : x.user = p.user
    · rw [presenceUpsert, if_pos h, presenceUpsert, if_pos rfl]
    · rw [presenceUpsert, if_neg h, presenceUpsert, if_neg h, ih]

/-- Any user name present after an upsert was present before or is the
upserted participant's. -/
theorem user_mem_presenceUpsert {p : Participant} {u : String} :
    ∀ {roster : List Participant},
      u ∈ (presenceUpsert p roster).map (fun x => x.user) →
      u = p.user ∨ u ∈ roster.map (fun x => x.user) := by
  intro roster
  induction roster with
  | nil =>
    intro h
    simp only [presenceUpsert, List.map_cons, List.map_nil, List.mem_singleton] at h
    exact Or.inl h
  | cons x rest ih =>
    intro h
    by_cases hx : x.user = p.user
    · rw [presenceUpsert, if_pos hx] at h
      simp only [List.map_cons, List.mem_cons] at h
      rcases h with h | h
      · exact Or.inl h
      · exact Or.inr (List.mem_cons_of_mem _ h)
    · rw [presenceUpsert, if_neg hx] at h
      simp only [List.map_cons, List.mem_cons] at h
      rcases h with h | h
      · exact Or.inr (by rw [List.map_cons]; exact h ▸ List.mem_cons_self _ _)
      · rcases ih h with h2 | h2
        · exact Or.inl h2
        · exact Or.inr (by rw [List.map_cons]; exact List.mem_cons_of_mem _ h2)

/-- The presence upsert preserves at most one participant per user
name: a hit replaces in place (same user at the same position), a miss
appends a user name that was absent. -/
theorem presenceUpsert_nodup {p : Participant} :
    ∀ {roster : List Participant}, (roster.map (fun x => x.user)).Nodup →
      ((presenceUpsert p roster).map (fun x => x.user)).Nodup := by
  intro roster
  induction roster with
  | nil => intro _; simp [presenceUpsert]
  | cons x rest ih =>
    intro hnd
    rw [List.map_cons, List.nodup_cons] at hnd
    by_cases hx : x.user = p.user
    · rw [presenceUpsert, if_pos hx, List.map_cons, List.nodup_cons]
      exact ⟨by rw [← hx]; exact hnd.1, hnd.2⟩
    · rw [presenceUpsert, if_neg hx, List.map_cons, List.nodup_cons]
      refine ⟨fun hmem => ?_, ih hnd.2⟩
      rcases user_mem_presenceUpsert hmem with h | h
      · exact hx h
      · exact hnd.1 h

/-- Upserting a participant whose user name is already present keeps
the roster length: the branch taken replaces in place. -/
theorem presenceUpsert_length {p : Participant} :
    ∀ {roster : List Participant}, p.user ∈ roster.map (fun x => x.user) →
      (presenceUpsert p roster).length = roster.length := by
  intro roster
  induction roster with
  | nil => intro h; simp at h
  | cons x rest ih =>
    intro hmem
    by_cases hx : x.user = p.user
    · rw [presenceUpsert, if_pos hx, List.length_cons, List.length_cons]
    · rw [presenceUpsert, if_neg hx, List.length_cons, List.length_cons]
      rw [List.map_cons, List.mem_cons] at hmem
      rcases hmem with h | h
      · exact absurd h.symm hx
      · rw [ih h]

/-! ## Claim theorems -/

/-- C1 counterexample: an inbound add envelope whose `created_at` is 20
seconds after the pending entry's (id `Y` ≠ `X`, same user and content)
still resolves the pending entry in place — the log keeps length 1 and
entry `X` takes on the envelope's fields — whereas the claim's
outside-window case asserts the pending entry is left untouched and the
envelope appended as a separate confirmed entry (which would give
length 2). -/
theorem claim_C1_counterexample :
    reconcile ⟨"Y", "hi", "Alice", "user", some "2025-01-01T00:00:20.000Z"⟩
        [⟨"X", "hi", "Alice", "user", some "2025-01-01T00:00:00.000Z", true⟩]
      = [⟨"Y", "hi", "Alice", "user", some "2025-01-01T00:00:20.000Z", false⟩] ∧
    (reconcile ⟨"Y", "hi", "Alice", "user", some "2025-01-01T00:00:20.000Z"⟩
        [⟨"X", "hi", "Alice", "user", some "2025-01-01T00:00:00.000Z", true⟩]).length ≠ 2 := by
  constructor
  · decide
  · decide

/-- C1 (amended): when an inbound add envelope matches no log entry by
id but its `(user, content)` pair matches a pending entry among the
most recent 40 log entries, `reconcile` resolves the most recent such
pending entry in place — `pending` is cleared and the entry's fields,
including its id, are replaced by the envelope's — and the log length
is unchanged.  No hypothesis on any timestamp appears: the resolution
happens regardless of the pending entry's age. -/
theorem claim_C1 (msg : AddMsg) (prev : List ChatEntry)
    (hid : replaceById msg prev = none)
    (hfz : fuzzyResolve msg prev ≠ none) :
    ∃ j e, prev.get? j = some e ∧ e.pending = true ∧ e.user = msg.user ∧
      e.content = msg.content ∧ prev.length ≤ j + 40 ∧
      reconcile msg prev = prev.set j (mergeEntry e msg) ∧
      (reconcile msg prev).length = prev.length ∧
      (mergeEntry e msg).pending = false ∧ (mergeEntry e msg).id = msg.id := by
  rw [reconcile, hid]
  cases hfzs : fuzzyResolve msg prev with
  | none => exact absurd hfzs hfz
  | some l =>
    obtain ⟨j, e, hget, hp, hu, hc, hlen, rfl⟩ := fuzzyResolve_spec hfzs
    exact ⟨j, e, hget, hp, hu, hc, hlen, rfl, by simp, rfl, rfl⟩

/-- C1 witness: the amended theorem applied to the concrete
20-seconds-later scenario of the counterexample. -/
theorem claim_C1_witness :
    ∃ j e,
      [(⟨"X", "hi", "Alice", "user", some "2025-01-01T00:00:00.000Z", true⟩ : ChatEntry)].get? j
          = some e ∧
      e.pending = true ∧ e.user = "Alice" ∧ e.content = "hi" ∧
      [(⟨"X", "hi", "Alice", "user", some "2025-01-01T00:00:00.000Z", true⟩ : ChatEntry)].length
          ≤ j + 40 ∧
      reconcile ⟨"Y", "hi", "Alice", "user", some "2025-01-01T00:00:20.000Z"⟩
          [⟨"X", "hi", "Alice", "user", some "2025-01-01T00:00:00.000Z", true⟩]
        = [(⟨"X", "hi", "Alice", "user", some "2025-01-01T00:00:00.000Z", true⟩ : ChatEntry)].set j
            (mergeEntry e ⟨"Y", "hi", "Alice", "user", some "2025-01-01T00:00:20.000Z"⟩) ∧
      (reconcile ⟨"Y", "hi", "Alice", "user", some "2025-01-01T00:00:20.000Z"⟩
          [⟨"X", "hi", "Alice", "user", some "2025-01-01T00:00:00.000Z", true⟩]).length = 1 ∧
      (mergeEntry e ⟨"Y", "hi", "Alice", "user", some "2025-01-01T00:00:20.000Z"⟩).pending
          = false ∧
      (mergeEntry e ⟨"Y", "hi", "Alice", "user", some "2025-01-01T00:00:20.000Z"⟩).id = "Y" :=
  claim_C1 ⟨"Y", "hi", "Alice", "user", some "2025-01-01T00:00:20.000Z"⟩
    [⟨"X", "hi", "Alice", "user", some "2025-01-01T00:00:00.000Z", true⟩]
    (by decide) (by decide)

/-- C2: along any sequence of optimistic local appends (with the
client's fresh-nanoid assumption), inbound add applications (through
`reconcile` or through `part_003`'s dedupe `addMessage`) and inbound
update applications (through `updateMessage`) starting from the empty
log, the message log never contains two entries with the same id. -/
theorem claim_C2 (log : List ChatEntry) (h : Reaches log) :
    (log.map (fun e => e.id)).Nodup := by
  induction h with
  | empty => simp
  | rlocal log newId content user role nowIso _ hfresh ih =>
    rw [appendLocal, List.map_append]
    refine nodup_append_singleton ih (fun hmem => ?_)
    obtain ⟨x, hx, hxid⟩ := List.mem_map.mp hmem
    exact hfresh x hx hxid
  | radd log msg _ ih => exact reconcile_nodup ih
  | raddDedupe log m _ ih => exact addMessage_nodup ih
  | rupdate log m _ ih => rw [updateMessage_ids]; exact ih

/-- C2 witness: a concrete three-step sequence — a local append, an
inbound add echo under a different id, an inbound update — produces a
log with duplicate-free ids. -/
theorem claim_C2_witness :
    ((updateMessage ⟨"Y", "edited", "Alice", "user"⟩
        (reconcile ⟨"Y", "hi", "Alice", "user", none⟩
          (appendLocal [] "X" "hi" "Alice" "user" "T0"))).map (fun e => e.id)).Nodup :=
  claim_C2 _ (.rupdate _ _ (.radd _ _ (.rlocal _ _ _ _ _ _ .empty (by simp))))

/-- C3: an inbound add envelope whose id exactly matches the pending
entry just produced by `appendLocal` resolves it in place: `pending` is
cleared, the entry's fields become the envelope's, no duplicate is
appended and the log length is unchanged. -/
theorem claim_C3 (log : List ChatEntry) (newId content user role nowIso : String)
    (msg : AddMsg) (hfresh : ∀ x ∈ log, x.id ≠ newId) (hecho : msg.id = newId) :
    reconcile msg (appendLocal log newId content user role nowIso)
      = log ++ [mergeEntry ⟨newId, content, user, role, some nowIso, true⟩ msg] ∧
    (reconcile msg (appendLocal log newId content user role nowIso)).length
      = (appendLocal log newId content user role nowIso).length ∧
    (mergeEntry ⟨newId, content, user, role, some nowIso, true⟩ msg).pending = false ∧
    (mergeEntry ⟨newId, content, user, role, some nowIso, true⟩ msg).id = msg.id ∧
    (mergeEntry ⟨newId, content, user, role, some nowIso, true⟩ msg).content = msg.content ∧
    (mergeEntry ⟨newId, content, user, role, some nowIso, true⟩ msg).user = msg.user ∧
    (mergeEntry ⟨newId, content, user, role, some nowIso, true⟩ msg).role = msg.role := by
  have hfresh2 : ∀ x ∈ log, x.id ≠ msg.id := fun x hx h => hfresh x hx (h.trans hecho)
  have hrep := replaceById_append (e := ⟨newId, content, user, role, some nowIso, true⟩)
    hecho.symm hfresh2
  have hL : appendLocal log newId content user role nowIso
      = log ++ [⟨newId, content, user, role, some nowIso, true⟩] := rfl
  rw [hL, reconcile, hrep]
  exact ⟨rfl, by simp, rfl, rfl, rfl, rfl, rfl⟩

/-- C3 witness: the theorem applied to a fresh local append of "hi" by
Alice and its exact-id echo. -/
theorem claim_C3_witness :
    reconcile ⟨"X", "hi", "Alice", "user", some "T2"⟩
        (appendLocal [] "X" "hi" "Alice" "user" "T0")
      = [⟨"X", "hi", "Alice", "user", some "T2", false⟩] := by
  have h := claim_C3 [] "X" "hi" "Alice" "user" "T0"
    ⟨"X", "hi", "Alice", "user", some "T2"⟩ (by simp) rfl
  exact h.1.trans (by decide)

/-- C4: an inbound update envelope replaces the entry carrying its id
by exactly the envelope's fields (with `pending` cleared), touches no
other entry, keeps the log length; and when no entry carries the id the
log is unchanged in length and contents. -/
theorem claim_C4 (m : UpdateMsg) (log : List ChatEntry) :
    (updateMessage m log).length = log.length ∧
    (∀ (i : Nat) (x : ChatEntry), log[i]? = some x →
      (updateMessage m log)[i]?
        = some (if x.id = m.id then entryOfUpdate m else x)) ∧
    (entryOfUpdate m).pending = false ∧
    ((∀ x ∈ log, x.id ≠ m.id) → updateMessage m log = log) := by
  refine ⟨by simp [updateMessage], fun i x hx => ?_, rfl, fun hnone => ?_⟩
  · rw [updateMessage, List.getElem?_map, hx]; rfl
  · have hcongr : log.map (fun x => if x.id = m.id then entryOfUpdate m else x)
        = log.map (fun x => x) :=
      List.map_congr_left (fun x hxmem => if_neg (hnone x hxmem))
    rw [updateMessage, hcongr, List.map_id']

/-- C4 witness: the theorem applied to a log without the update's id;
the update is dropped and the log unchanged. -/
theorem claim_C4_witness :
    updateMessage ⟨"never-seen", "new", "Bob", "user"⟩
        [⟨"A", "old", "Bob", "user", none, false⟩]
      = [⟨"A", "old", "Bob", "user", none, false⟩] :=
  (claim_C4 ⟨"never-seen", "new", "Bob", "user"⟩
    [⟨"A", "old", "Bob", "user", none, false⟩]).2.2.2 (by decide)

/-- C5 counterexample: the second `index.tsx` variant's
`handleIncoming` is not a no-op on an envelope with an unrecognized
type tag — its fallback branch appends a synthesized system entry
(built from `Date.now()` and the raw frame text) to the message log. -/
theorem claim_C5_counterexample :
    handleIncoming 0 "frame-text"
        (.ok (.jobj [("type", .jstr "unknown-future-type")])) ⟨[], []⟩
      = ⟨[⟨"sys-0", "frame-text", "system", "system", none, false⟩], []⟩ ∧
    handleIncoming 0 "frame-text"
        (.ok (.jobj [("type", .jstr "unknown-future-type")])) ⟨[], []⟩
      ≠ (⟨[], []⟩ : ClientState) := by
  constructor
  · decide
  · decide

/-- C5 (amended): in the reconcile engine's `onMessage` (and likewise
in `part_003`, which ignores unknown types), an envelope whose type tag
is a string other than the recognized ones is a no-op: the handler is a
total function (nothing is thrown) and neither the message log nor the
participant roster changes.  Only the second variant's `handleIncoming`
deviates, per the counterexample. -/
theorem claim_C5 (data : JValue) (st : ClientState) (t : String)
    (htag : typeTag data = some t) (hunrec : t ∉ recognizedTags) :
    onMessage (.ok data) st = st := by
  have hne : ∀ s : String, s ∈ recognizedTags → typeTag data ≠ some s := by
    intro s hs h
    rw [htag] at h
    exact hunrec (by rwa [Option.some_inj.mp h])
  rw [onMessage]
  by_cases hguard : passesGuard data
  · rw [if_pos hguard, if_neg (hne "presence" (by decide)),
      if_neg (hne "participants" (by decide)), if_neg (hne "add" (by decide))]
  · rw [if_neg hguard]

/-- C5 witness: the amended theorem applied to the counterexample's
unrecognized envelope; `onMessage` leaves the state untouched. -/
theorem claim_C5_witness :
    onMessage (.ok (.jobj [("type", .jstr "unknown-future-type")])) ⟨[], []⟩
      = (⟨[], []⟩ : ClientState) :=
  claim_C5 (.jobj [("type", .jstr "unknown-future-type")]) ⟨[], []⟩
    "unknown-future-type" rfl (by decide)

/-- C6 counterexample: with 501 in-memory entries whose oldest is still
pending, the persisted copy `messages.slice(-500)` (`logTrim`) drops
that pending entry, contradicting the claim that a pending entry is
never dropped while its reconciliation is in flight. -/
theorem claim_C6_counterexample :
    (⟨"p", "hi", "Alice", "user", none, true⟩ : ChatEntry).pending = true ∧
    (⟨"p", "hi", "Alice", "user", none, true⟩ : ChatEntry) ∈
      (⟨"p", "hi", "Alice", "user", none, true⟩ : ChatEntry)
        :: List.replicate 500 ⟨"c", "z", "Bob", "user", none, false⟩ ∧
    (⟨"p", "hi", "Alice", "user", none, true⟩ : ChatEntry) ∉
      logTrim ((⟨"p", "hi", "Alice", "user", none, true⟩ : ChatEntry)
        :: List.replicate 500 ⟨"c", "z", "Bob", "user", none, false⟩) := by
  refine ⟨rfl, List.mem_cons_self _ _, fun hmem => ?_⟩
  have hlen : ((⟨"p", "hi", "Alice", "user", none, true⟩ : ChatEntry)
      :: List.replicate 500 (⟨"c", "z", "Bob", "user", none, false⟩ : ChatEntry)).length - 500
      = 1 := by rw [List.length_cons, List.length_replicate]
  rw [logTrim, hlen, List.drop_one, List.tail_cons] at hmem
  have heq := List.eq_of_mem_replicate hmem
  exact absurd heq (by decide)

/-- C6 (amended): the persisted message log `messages.slice(-500)` is
capped at 500 entries and is always a suffix of the in-memory log, so
trimming drops only from the oldest end and never the newest; pending
entries get no exemption from the cut (the in-memory log itself, which
reconciliation operates on, is never trimmed). -/
theorem claim_C6 (log : List ChatEntry) :
    (logTrim log).length = min log.length 500 ∧ List.IsSuffix (logTrim log) log := by
  constructor
  · rw [logTrim, List.length_drop]; omega
  · exact ⟨log.take (log.length - 500), List.take_append_drop _ _⟩

/-- C7: the presence upsert is idempotent — applying the same presence
envelope twice leaves the roster identical to applying it once, for all
participant fields — it preserves at-most-one-participant-per-user, and
a presence event for an already-present user merges in place rather
than appending (roster length unchanged). -/
theorem claim_C7 (d : PresenceMsg) (roster : List Participant) :
    presenceStep d (presenceStep d roster) = presenceStep d roster ∧
    ((roster.map (fun x => x.user)).Nodup →
      ((presenceStep d roster).map (fun x => x.user)).Nodup) ∧
    ((mkParticipant d).user ∈ roster.map (fun x => x.user) →
      (presenceStep d roster).length = roster.length) :=
  ⟨presenceUpsert_idem _ roster, fun h => presenceUpsert_nodup h,
    fun h => presenceUpsert_length h⟩

/-- C7 witness: the theorem applied to a concrete presence envelope for
a user already in a one-entry roster: idempotence, duplicate-free user
names, and unchanged roster length. -/
theorem claim_C7_witness :
    presenceStep ⟨"Alice", some "c1", some "online", some "T1"⟩
        (presenceStep ⟨"Alice", some "c1", some "online", some "T1"⟩
          [⟨"Alice", some "c0", "offline", none⟩])
      = presenceStep ⟨"Alice", some "c1", some "online", some "T1"⟩
          [⟨"Alice", some "c0", "offline", none⟩] ∧
    ((presenceStep ⟨"Alice", some "c1", some "online", some "T1"⟩
        [⟨"Alice", some "c0", "offline", none⟩]).map (fun x => x.user)).Nodup ∧
    (presenceStep ⟨"Alice", some "c1", some "online", some "T1"⟩
        [⟨"Alice", some "c0", "offline", none⟩]).length
      = [(⟨"Alice", some "c0", "offline", none⟩ : Participant)].length :=
  ⟨(claim_C7 ⟨"Alice", some "c1", some "online", some "T1"⟩
      [⟨"Alice", some "c0", "offline", none⟩]).1,
    (claim_C7 ⟨"Alice", some "c1", some "online", some "T1"⟩
      [⟨"Alice", some "c0", "offline", none⟩]).2.1 (by decide),
    (claim_C7 ⟨"Alice", some "c1", some "online", some "T1"⟩
      [⟨"Alice", some "c0", "offline", none⟩]).2.2 (by decide)⟩

/-- C8: an inbound add envelope whose settled (confirmed, non-pending)
entry with identical fields is already present in a duplicate-free log
is an idempotent no-op: `reconcile` returns the log unchanged, so the
log after a second application equals the log after the first. -/
theorem claim_C8 (msg : AddMsg) (log : List ChatEntry)
    (hmem : entryOfAdd msg ∈ log) (hnd : (log.map (fun e => e.id)).Nodup) :
    reconcile msg log = log := by
  rw [reconcile, replaceById_settled hmem hnd]

/-- C8 witness: the theorem applied to a one-entry log holding the
settled form of the duplicate envelope. -/
theorem claim_C8_witness :
    reconcile ⟨"Y", "hi", "Alice", "user", none⟩
        [entryOfAdd ⟨"Y", "hi", "Alice", "user", none⟩]
      = [entryOfAdd ⟨"Y", "hi", "Alice", "user", none⟩] :=
  claim_C8 ⟨"Y", "hi", "Alice", "user", none⟩
    [entryOfAdd ⟨"Y", "hi", "Alice", "user", none⟩] (by decide) (by decide)

/-- C9: the reconcile engine's inbound handler drops malformed input
with all state untouched: a `JSON.parse` throw is caught (the handler
is a total function of the parse outcome — the error is a value, not an
uncaught throw), a non-object payload fails the `!data || typeof data
!== "object"` guard, and a payload without a recognized type
discriminator falls through every dispatch branch. -/
theorem claim_C9 (raw : Except Unit JValue) (st : ClientState)
    (h : raw = .error () ∨ ∃ data, raw = .ok data ∧
      (passesGuard data = false ∨ ∀ t ∈ recognizedTags, typeTag data ≠ some t)) :
    onMessage raw st = st := by
  rcases h with rfl | ⟨data, rfl, hbad⟩
  · rfl
  · rw [onMessage]
    rcases hbad with hguard | htag
    · rw [if_neg (by simp [hguard])]
    · by_cases hguard : passesGuard data
      · rw [if_pos hguard, if_neg (htag "presence" (by decide)),
          if_neg (htag "participants" (by decide)), if_neg (htag "add" (by decide))]
      · rw [if_neg hguard]

/-- C9 witness: the theorem applied to a payload that parses to a bare
string (not an envelope object): a non-empty state is untouched. -/
theorem claim_C9_witness :
    onMessage (.ok (.jstr "not-an-envelope"))
        ⟨[⟨"A", "x", "u", "user", none, false⟩], [⟨"u", none, "online", none⟩]⟩
      = ⟨[⟨"A", "x", "u", "user", none, false⟩], [⟨"u", none, "online", none⟩]⟩ :=
  claim_C9 (.ok (.jstr "not-an-envelope"))
    ⟨[⟨"A", "x", "u", "user", none, false⟩], [⟨"u", none, "online", none⟩]⟩
    (Or.inr ⟨.jstr "not-an-envelope", rfl, Or.inl rfl⟩)

/-- C10: a presence envelope is routed to the roster upsert of the
participant built by `mkParticipant`, whose optional fields are
defaulted before the upsert: an absent `status` field becomes
`"online"` and an absent session `id` field becomes the envelope's user
name. -/
theorem claim_C10 (data : JValue) (st : ClientState) (u : String)
    (hguard : passesGuard data = true)
    (htype : typeTag data = some "presence")
    (huser : getF data "user" = some (.jstr u)) :
    onMessage (.ok data) st
      = { st with participants := presenceStep (decodePresence data) st.participants } ∧
    (getF data "status" = none → (mkParticipant (decodePresence data)).status = "online") ∧
    (getF data "id" = none → (mkParticipant (decodePresence data)).id = some u) := by
  refine ⟨?_, fun hs => ?_, fun hid => ?_⟩
  · rw [onMessage, if_pos (by simp [hguard]), if_pos htype]
  · simp [mkParticipant, decodePresence, hs, jStr?]
  · simp [mkParticipant, decodePresence, hid, huser, jStr?]

/-- C10 witness: the theorem applied to a presence envelope carrying
only `type` and `user`: the upserted participant gets status "online"
and id equal to the user name. -/
theorem claim_C10_witness :
    onMessage (.ok (.jobj [("type", .jstr "presence"), ("user", .jstr "Alice")]))
        ⟨[], []⟩
      = ⟨[], [⟨"Alice", some "Alice", "online", none⟩]⟩ := by
  have h := claim_C10 (.jobj [("type", .jstr "presence"), ("user", .jstr "Alice")])
    ⟨[], []⟩ "Alice" rfl rfl rfl
  rw [h.1]
  rfl
